import Mathlib

/-!
Shallow embedding of the Kitsunet-Share core (src/src-tauri/src/main.rs):
peer discovery with stale eviction, the offers table bridging inbound
transfer requests to accept/reject decisions, and the framed file-transfer
loops of sender and receiver.

Modelling conventions:
* `Instant` is a monotonic timestamp in nanoseconds (`Nat`);
  `Duration::as_secs` is division by `10^9`, and `duration_since`
  saturates at zero like the Rust standard library (`Nat` subtraction).
* The `HashSet<Peer>` of the registry is a `List Peer`; the hash-set
  invariant "at most one element per equality class" is the hypothesis
  `(peers.map Peer.address).Nodup` where it matters.  `HashSet::replace`
  removes the (unique) stored element equal to the new one and inserts
  the new one; on lists satisfying the invariant, filtering out every
  equal element removes exactly that entry.
* The `HashMap<String, oneshot::Sender<bool>>` of pending offers is a
  `List (String × Nat)` where the `Nat` is an opaque channel token; a
  predicate `rxAlive` says whether the receiving half of a channel is
  still alive (`oneshot::Sender::send` fails exactly when it is not).
* Socket reads are abstracted by oracles: `recvLoopO` takes an arbitrary
  per-iteration read result (capped by the requested length, as a socket
  read is), while the batch-level model `recvFileAvail`/`recvBatch` uses
  the deterministic "`avail` bytes arrive and then the connection is
  closed" socket, under which a read returns
  `min (requested) (bytes still available)`.
* File contents are irrelevant to every claim, so files on disk are
  `(name, bytes written)` pairs and streams are byte counts.
-/

namespace Kitsunet

/-- Constant `PEER_TIMEOUT_SECS` from the source. -/
def PEER_TIMEOUT_SECS : Nat := 2

/-- Nanoseconds per second, the unit conversion inside `Duration::as_secs`. -/
def NANOS_PER_SEC : Nat := 1000000000

/-- The 1 MiB buffer length used by both transfer loops. -/
def CHUNK_SIZE : Nat := 1024 * 1024

/-- Struct `Peer`: username, address, and an optional local timestamp. -/
structure Peer where
  username : String
  address : String
  last_seen : Option Nat
deriving DecidableEq, Repr

/-- The `PartialEq` impl of `Peer`: equality is by `address` alone. -/
def peerEq (a b : Peer) : Bool := a.address == b.address

/-- Struct `UserSettings`. -/
structure UserSettings where
  username : String
  broadcasting_enabled : Bool
  broadcast_address : String
deriving DecidableEq, Repr

/-- Struct `SharedState`: the registry protected by the single mutex. -/
structure SharedState where
  peers : List Peer
  settings : UserSettings
deriving DecidableEq, Repr

/-- Struct `FileMetadata`. -/
structure FileMetadata where
  name : String
  size : Nat
deriving DecidableEq, Repr

/-- Command `get_users`: lock, clone the peer set; the state is untouched. -/
def get_users (st : SharedState) : SharedState × List Peer := (st, st.peers)

/-- Command `get_settings`: lock, clone the settings; the state is untouched. -/
def get_settings (st : SharedState) : SharedState × UserSettings := (st, st.settings)

/-- Command `update_settings`: wholesale replacement of the settings. -/
def update_settings (s : UserSettings) (st : SharedState) : SharedState :=
  { st with settings := s }

/-- The retain predicate of the heartbeat sweep: a peer is kept when it has a
`last_seen` timestamp and `now.duration_since(last_seen).as_secs()` is below
`PEER_TIMEOUT_SECS`; a peer with no timestamp is always dropped. -/
def peerFresh (now : Nat) (p : Peer) : Bool :=
  match p.last_seen with
  | some t => decide ((now - t) / NANOS_PER_SEC < PEER_TIMEOUT_SECS)
  | none => false

/-- The peer-cleanup block of the heartbeat tick: retain fresh peers and
report whether a `peers_updated` notification was emitted (the length
strictly decreased). -/
def tickCleanup (now : Nat) (st : SharedState) : SharedState × Bool :=
  ({ st with peers := st.peers.filter (peerFresh now) },
   decide ((st.peers.filter (peerFresh now)).length < st.peers.length))

/-- The `HashSet::replace` call of the receive branch: return the stored
peer equal (by address) to the new one, if any, and the set with the new
peer in place of it. -/
def upsertPeer (peers : List Peer) (p : Peer) : Option Peer × List Peer :=
  match peers.find? (fun q => peerEq q p) with
  | none => (none, p :: peers)
  | some old => (some old, p :: peers.filter (fun q => !peerEq q p))

/-- The receive branch of `discovery_task` for one datagram.  `parsed` is
the result of `serde_json::from_slice::<Message>` (`some username` for a
valid `Presence`, `none` for a malformed datagram).  Returns the new state
and whether `peers_updated` was emitted.  The self-suppression check on
`localIps` runs before the payload is even looked at. -/
def handleDatagram (localIps : List String) (srcIp : String) (parsed : Option String)
    (now : Nat) (st : SharedState) : SharedState × Bool :=
  if localIps.contains srcIp then (st, false)
  else
    match parsed with
    | none => (st, false)
    | some username =>
      let newPeer : Peer := ⟨username, srcIp, some now⟩
      ({ st with peers := (upsertPeer st.peers newPeer).2 },
       match (upsertPeer st.peers newPeer).1 with
       | none => true
       | some o => decide (o.username ≠ newPeer.username))

/-- Commands `accept_file_offer` and `reject_file_offer` share this body:
remove the entry for `offerId` from the offers table; if one was there,
send `decision` on its oneshot channel (which fails exactly when the
receiving half is gone).  Returns the new table, the message delivered
(channel token and decision), and the command's `Result`.  A missing entry
is a quiet no-op returning `Ok(())`. -/
def resolve_file_offer (rxAlive : Nat → Bool) (decision : Bool) (offerId : String)
    (offers : List (String × Nat)) :
    List (String × Nat) × Option (Nat × Bool) × Except String Unit :=
  match offers.find? (fun e => e.1 == offerId) with
  | some e =>
      (offers.filter (fun x => !(x.1 == offerId)),
       if rxAlive e.2 then some (e.2, decision) else none,
       if rxAlive e.2 then Except.ok ()
       else Except.error (if decision then "Failed to send acceptance" else "Failed to send rejection"))
  | none => (offers, none, Except.ok ())

/-- Command `accept_file_offer`. -/
def accept_file_offer (rxAlive : Nat → Bool) (offerId : String)
    (offers : List (String × Nat)) :
    List (String × Nat) × Option (Nat × Bool) × Except String Unit :=
  resolve_file_offer rxAlive true offerId offers

/-- Command `reject_file_offer`. -/
def reject_file_offer (rxAlive : Nat → Bool) (offerId : String)
    (offers : List (String × Nat)) :
    List (String × Nat) × Option (Nat × Bool) × Except String Unit :=
  resolve_file_offer rxAlive false offerId offers

/-- Total size of a batch, `files.iter().map(|f| f.size).sum()`. -/
def sumSizes (files : List FileMetadata) : Nat := (files.map FileMetadata.size).sum

/-- Outcome of the receiver's per-file loop under an arbitrary socket:
bytes received so far (= bytes written to this file on disk), the
cumulative `received_for_file` value at each progress notification, and
whether the loop ran to completion or aborted on a zero-byte read. -/
inductive LoopOut where
  | done (receivedEnd : Nat) (events : List Nat)
  | aborted (receivedEnd : Nat) (events : List Nat)
deriving DecidableEq, Repr

/-- Final `received_for_file` value of a loop outcome. -/
def LoopOut.receivedEnd : LoopOut → Nat
  | .done r _ => r
  | .aborted r _ => r

/-- Progress-notification trace of a loop outcome. -/
def LoopOut.events : LoopOut → List Nat
  | .done _ es => es
  | .aborted _ es => es

/-- Whether the loop reached its exit condition (rather than aborting). -/
def LoopOut.isDone : LoopOut → Bool
  | .done _ _ => true
  | .aborted _ _ => false

/-- Prepend one progress notification to a loop outcome. -/
def LoopOut.consEvent (v : Nat) : LoopOut → LoopOut
  | .done r es => .done r (v :: es)
  | .aborted r es => .aborted r (v :: es)

/-- The local `bytes_to_read = min(buffer.len(), size - received)` of the
receiver's loop: never request more than the file still owes. -/
def bytesToRead (size received : Nat) : Nat := min CHUNK_SIZE (size - received)

/-- The receiver's per-file loop (`while received_for_file < file_meta.size`)
under an arbitrary socket: `sock k` is the number of bytes the socket would
deliver to the `k`-th read call, and the read returns at most the requested
`bytesToRead size received`.  A zero-byte read while bytes are still owed
aborts with the connection-aborted error path. -/
def recvLoopO (sock : Nat → Nat) (size k received : Nat) : LoopOut :=
  if h : received < size then
    if hz : min (sock k) (bytesToRead size received) = 0 then .aborted received []
    else LoopOut.consEvent (received + min (sock k) (bytesToRead size received))
      (recvLoopO sock size (k + 1) (received + min (sock k) (bytesToRead size received)))
  else .done received []
termination_by size - received
decreasing_by simp_wf; omega

/-- Outcome of the receiver's per-file loop under the deterministic
"`avail` bytes then EOF" socket: final `received_for_file`, bytes still
available on the stream, progress-notification trace, and whether the
loop aborted. -/
structure FileRecv where
  received : Nat
  availLeft : Nat
  events : List Nat
  aborted : Bool
deriving DecidableEq, Repr

/-- Prepend one progress notification to a per-file outcome. -/
def FileRecv.consEvent (v : Nat) (fr : FileRecv) : FileRecv :=
  { fr with events := v :: fr.events }

/-- The receiver's per-file loop under the deterministic socket: a read of
`bytes_to_read = min CHUNK_SIZE (size - received)` returns
`min bytes_to_read avail`, and returns `0` (connection closed) once
`avail` is exhausted. -/
def recvFileAvail (size received avail : Nat) : FileRecv :=
  if h : received < size then
    if hz : min (bytesToRead size received) avail = 0 then ⟨received, avail, [], true⟩
    else FileRecv.consEvent (received + min (bytesToRead size received) avail)
      (recvFileAvail size (received + min (bytesToRead size received) avail)
        (avail - min (bytesToRead size received) avail))
  else ⟨received, avail, [], false⟩
termination_by size - received
decreasing_by simp_wf; omega

/-- Receiver-side notifications, keyed by file name: `transfer-progress`
(carrying the `received_for_file`/`size` pair behind the percentage) and
`transfer-complete`. -/
inductive InEvent where
  | progress (fileName : String) (receivedSoFar : Nat) (fileSize : Nat)
  | complete (fileName : String)
deriving DecidableEq, Repr

/-- Result of a transfer routine. -/
inductive TResult where
  | ok : TResult
  | err (msg : String) : TResult
deriving DecidableEq, Repr

/-- Outcome of the receiver's accepted-batch file loop: files on disk as
`(name, bytes written)` in creation order, the notification trace, bytes
left unread on the stream, and the routine's result. -/
structure BatchOutcome where
  disk : List (String × Nat)
  events : List InEvent
  availLeft : Nat
  result : TResult
deriving DecidableEq, Repr

/-- The `for file_meta in files` loop of `handle_incoming_batch` under the
deterministic socket, with `disk` and `events` accumulating previous
effects: each iteration creates the destination file, runs the per-file
loop, and on success emits `transfer-complete`; an aborted file ends the
batch with the connection-aborted error, leaving every byte already
written (completed files and the partial current file) on disk. -/
def recvBatch (avail : Nat) (disk : List (String × Nat)) (events : List InEvent) :
    List FileMetadata → BatchOutcome
  | [] => ⟨disk, events, avail, .ok⟩
  | f :: rest =>
    let fr := recvFileAvail f.size 0 avail
    if fr.aborted then
      ⟨disk ++ [(f.name, fr.received)],
       events ++ fr.events.map (fun r => InEvent.progress f.name r f.size),
       fr.availLeft, .err "Connection closed prematurely"⟩
    else
      recvBatch fr.availLeft (disk ++ [(f.name, fr.received)])
        (events ++ fr.events.map (fun r => InEvent.progress f.name r f.size)
          ++ [InEvent.complete f.name]) rest

/-- The decision-dependent tail of `handle_incoming_batch`, from the
`rx.await` on the offer's oneshot channel onwards.  `decision` is the
channel's result (`none` when the sender half was dropped), `dirOk`
whether the download directory resolves, and `avail` the bytes the sender
will deliver before the connection closes.  Returns the acceptance/
rejection bytes written back to the socket and the batch outcome: only
`Ok(true)` takes the accept path; `Ok(false)` and `Err` write the single
rejection byte `0` and touch no file. -/
def handle_incoming_batch (decision : Option Bool) (dirOk : Bool)
    (files : List FileMetadata) (avail : Nat) : List Nat × BatchOutcome :=
  if decision = some true then
    if dirOk then ([1], recvBatch avail [] [] files)
    else ([1], ⟨[], [], avail, .err "Download directory not found"⟩)
  else ([0], ⟨[], [], avail, .ok⟩)

/-- The sender's per-file loop: read the open file into the 1 MiB buffer
until a zero-byte read, writing each chunk to the socket and emitting a
progress notification.  A read at offset `sent` of a file of `fileSize`
bytes returns `min CHUNK_SIZE (fileSize - sent)`.  Returns the number of
bytes written to the socket and the cumulative `sent_for_file` value at
each progress notification. -/
def sendFileChunks (fileSize sent : Nat) : Nat × List Nat :=
  if h : sent < fileSize then
    (min CHUNK_SIZE (fileSize - sent) +
       (sendFileChunks fileSize (sent + min CHUNK_SIZE (fileSize - sent))).1,
     (sent + min CHUNK_SIZE (fileSize - sent)) ::
       (sendFileChunks fileSize (sent + min CHUNK_SIZE (fileSize - sent))).2)
  else (0, [])
termination_by fileSize - sent
decreasing_by all_goals (simp_wf; unfold CHUNK_SIZE; omega)

/-- Sender-side notifications, keyed by file path. -/
inductive OutEvent where
  | progress (filePath : String) (sentSoFar : Nat) (fileSize : Nat)
  | complete (filePath : String)
deriving DecidableEq, Repr

/-- The `for path_str in &file_paths` loop of `send_files`: each file is
streamed in full, then `transfer-complete` is emitted.  Files are
`(path, size)` pairs; returns the notification trace and the total file
bytes written to the socket. -/
def sendBatch : List (String × Nat) → List OutEvent × Nat
  | [] => ([], 0)
  | (path, size) :: rest =>
    let fr := sendFileChunks size 0
    let r := sendBatch rest
    (fr.2.map (fun s => OutEvent.progress path s size)
       ++ [OutEvent.complete path] ++ r.1,
     fr.1 + r.2)

/-- The tail of `send_files` from the acceptance-byte read onwards: any
byte other than `1` returns the rejection error before a single file byte
is sent; on `1` the file loop runs. -/
def send_files_after_header (acceptByte : Nat) (files : List (String × Nat)) :
    (List OutEvent × Nat) × Except String Unit :=
  if acceptByte ≠ 1 then (([], 0), Except.error "File transfer rejected by recipient")
  else (sendBatch files, Except.ok ())

/-! Helper lemmas. -/

/-- Prepending a progress notification does not change the final byte count. -/
theorem LoopOut.receivedEnd_consEvent (v : Nat) (o : LoopOut) :
    (LoopOut.consEvent v o).receivedEnd = o.receivedEnd := by
  cases o <;> rfl

/-- Prepending a progress notification does not change the exit kind. -/
theorem LoopOut.isDone_consEvent (v : Nat) (o : LoopOut) :
    (LoopOut.consEvent v o).isDone = o.isDone := by
  cases o <;> rfl

/-- Prepending a progress notification conses it onto the trace. -/
theorem LoopOut.events_consEvent (v : Nat) (o : LoopOut) :
    (LoopOut.consEvent v o).events = v :: o.events := by
  cases o <;> rfl

/-- A filter's length drops strictly iff some element fails the predicate. -/
theorem length_filter_lt_iff {α : Type} (p : α → Bool) (l : List α) :
    (l.filter p).length < l.length ↔ ∃ x ∈ l, p x = false := by
  constructor
  · intro h
    by_contra hc
    push_neg at hc
    have he : (l.filter p).length = l.length := by
      rw [List.filter_length_eq_length]
      intro a ha
      cases hpa : p a with
      | false => exact absurd hpa (by simpa using hc a ha)
      | true => rfl
    omega
  · rintro ⟨x, hx, hpx⟩
    rcases Nat.lt_or_ge (l.filter p).length l.length with h | h
    · exact h
    · exfalso
      have he : (l.filter p).length = l.length :=
        Nat.le_antisymm (List.length_filter_le p l) h
      have hall := List.filter_length_eq_length.mp he x hx
      rw [hpx] at hall
      exact Bool.false_ne_true hall

/-- The retain predicate in terms of the claim's timeout condition. -/
theorem peerFresh_iff (now : Nat) (p : Peer) :
    peerFresh now p = true ↔
      ∃ t, p.last_seen = some t ∧ now - t < PEER_TIMEOUT_SECS * NANOS_PER_SEC := by
  unfold peerFresh
  cases hls : p.last_seen with
  | none => simp
  | some t =>
    simp only [decide_eq_true_eq, Option.some.injEq]
    rw [Nat.div_lt_iff_lt_mul (by norm_num [NANOS_PER_SEC])]
    constructor
    · intro hlt
      exact ⟨t, rfl, hlt⟩
    · rintro ⟨t', ht', hlt⟩
      cases ht'
      exact hlt

/-- Filtering a list of peers keeps the addresses duplicate-free. -/
theorem nodup_addresses_filter (peers : List Peer) (pr : Peer → Bool)
    (h : (peers.map Peer.address).Nodup) :
    ((peers.filter pr).map Peer.address).Nodup :=
  h.sublist (List.Sublist.map Peer.address (List.filter_sublist peers))

/-- On a duplicate-free peer set that contains an entry at `p`'s address,
dropping every peer equal to `p` removes exactly one element. -/
theorem filter_out_address_length (p : Peer) :
    ∀ peers : List Peer, (peers.map Peer.address).Nodup →
      (∃ q ∈ peers, q.address = p.address) →
      (peers.filter (fun q => !peerEq q p)).length + 1 = peers.length := by
  intro peers
  induction peers with
  | nil => rintro _ ⟨q, hq, _⟩; simp at hq
  | cons a rest ih =>
    intro h hq
    rw [List.map_cons, List.nodup_cons] at h
    by_cases ha : a.address = p.address
    · have hfa : (!peerEq a p) = false := by simp [peerEq, ha]
      have hrest : ∀ q ∈ rest, (!peerEq q p) = true := by
        intro q hqr
        have hne : q.address ≠ p.address := by
          intro he
          exact h.1 (by rw [ha, ← he]; exact List.mem_map_of_mem Peer.address hqr)
        simp [peerEq, hne]
      simp [List.filter_cons, hfa, List.filter_eq_self.mpr hrest]
    · have hfa : (!peerEq a p) = true := by simp [peerEq, ha]
      have hq' : ∃ q ∈ rest, q.address = p.address := by
        rcases hq with ⟨q, hqm, hqa⟩
        rcases List.mem_cons.mp hqm with rfl | hm
        · exact absurd hqa ha
        · exact ⟨q, hm, hqa⟩
      have hlen := ih h.2 hq'
      simp only [List.filter_cons, hfa, if_pos, List.length_cons]
      omega

/-! Claim theorems. -/

/-- C10: the two halves of the shared registry state are independent:
`update_settings` replaces the settings wholesale and leaves the peer set
unchanged, `get_settings` and `get_users` modify nothing, and the
discovery operations (stale sweep and presence upsert) modify only the
peer set and leave the settings unchanged. -/
theorem C10_frame_independence (st : SharedState) (s : UserSettings) (now : Nat)
    (lips : List String) (src : String) (pl : Option String) :
    (update_settings s st).peers = st.peers ∧
    (update_settings s st).settings = s ∧
    get_users st = (st, st.peers) ∧
    get_settings st = (st, st.settings) ∧
    (tickCleanup now st).1.settings = st.settings ∧
    (handleDatagram lips src pl now st).1.settings = st.settings := by
  refine ⟨rfl, rfl, rfl, rfl, rfl, ?_⟩
  unfold handleDatagram
  split
  · rfl
  · cases pl with
    | none => rfl
    | some u => rfl

/-- C7: a discovery datagram whose source IP is one of the local machine's
interface addresses is discarded before its payload is looked at: the
state is unchanged and no notification is emitted, whatever the payload. -/
theorem C7_self_suppression (localIps : List String) (src : String)
    (parsed : Option String) (now : Nat) (st : SharedState)
    (h : localIps.contains src = true) :
    handleDatagram localIps src parsed now st = (st, false) := by
  unfold handleDatagram
  rw [if_pos h]

/-- Witness for C7 at a concrete datagram. -/
theorem C7_witness :
    (["10.0.0.1"].contains "10.0.0.1" = true) ∧
    handleDatagram ["10.0.0.1"] "10.0.0.1" (some "eve") 5
        ⟨[], ⟨"me", true, "b"⟩⟩ = (⟨[], ⟨"me", true, "b"⟩⟩, false) :=
  ⟨by decide, C7_self_suppression ["10.0.0.1"] "10.0.0.1" (some "eve") 5
      ⟨[], ⟨"me", true, "b"⟩⟩ (by decide)⟩

/-- C5: rejection round-trip.  When the offer decision is reject (either
`Ok(false)` from the channel, or the channel's sender dropped), the server
writes the single byte `0` and writes no file; symmetrically, a sender
reading acceptance byte `0` fails with the rejection error and sends no
file bytes. -/
theorem C5_reject_roundtrip (files : List FileMetadata) (paths : List (String × Nat))
    (dirOk : Bool) (avail : Nat) :
    handle_incoming_batch (some false) dirOk files avail =
      ([0], ⟨[], [], avail, .ok⟩) ∧
    handle_incoming_batch none dirOk files avail =
      ([0], ⟨[], [], avail, .ok⟩) ∧
    send_files_after_header 0 paths =
      (([], 0), Except.error "File transfer rejected by recipient") := by
  refine ⟨?_, ?_, ?_⟩ <;> simp [handle_incoming_batch, send_files_after_header]

/-- C3: the stale sweep keeps exactly the peers whose `last_seen` age is
strictly below the 2-second timeout (a peer with no `last_seen` is always
removed), and the membership-changed notification fires iff at least one
peer was removed. -/
theorem C3_evict_stale (now : Nat) (st : SharedState) :
    (∀ p : Peer, p ∈ (tickCleanup now st).1.peers ↔
       (p ∈ st.peers ∧ ∃ t, p.last_seen = some t ∧
          now - t < PEER_TIMEOUT_SECS * NANOS_PER_SEC)) ∧
    ((tickCleanup now st).2 = true ↔
       ∃ p ∈ st.peers, ¬ ∃ t, p.last_seen = some t ∧
          now - t < PEER_TIMEOUT_SECS * NANOS_PER_SEC) := by
  constructor
  · intro p
    rw [show (tickCleanup now st).1.peers = st.peers.filter (peerFresh now) from rfl]
    rw [List.mem_filter, peerFresh_iff]
  · rw [show (tickCleanup now st).2 =
        decide ((st.peers.filter (peerFresh now)).length < st.peers.length) from rfl]
    rw [decide_eq_true_eq, length_filter_lt_iff]
    constructor
    · rintro ⟨p, hp, hf⟩
      refine ⟨p, hp, ?_⟩
      rw [← peerFresh_iff now p, hf]
      exact Bool.false_ne_true
    · rintro ⟨p, hp, hf⟩
      refine ⟨p, hp, ?_⟩
      cases hpf : peerFresh now p with
      | false => rfl
      | true => exact absurd ((peerFresh_iff now p).mp hpf) hf

/-- C9: a declared size of 0 is a safe boundary case.  The receiver's
chunk loop is never entered (zero progress notifications, so the
percentage division is never reached), the file is created with 0 bytes,
and a completion notification is still emitted; the sender likewise emits
no progress notification and one completion for a 0-byte file. -/
theorem C9_zero_size_file (n p : String) (avail : Nat) :
    recvFileAvail 0 0 avail = ⟨0, avail, [], false⟩ ∧
    sendFileChunks 0 0 = (0, []) ∧
    recvBatch avail [] [] [⟨n, 0⟩] = ⟨[(n, 0)], [InEvent.complete n], avail, .ok⟩ ∧
    handle_incoming_batch (some true) true [⟨n, 0⟩] avail =
      ([1], ⟨[(n, 0)], [InEvent.complete n], avail, .ok⟩) ∧
    sendBatch [(p, 0)] = ([OutEvent.complete p], 0) := by
  have h1 : recvFileAvail 0 0 avail = ⟨0, avail, [], false⟩ := by
    rw [recvFileAvail]
    simp
  have h2 : sendFileChunks 0 0 = (0, []) := by
    rw [sendFileChunks]
    simp
  have h3 : recvBatch avail [] [] [⟨n, 0⟩] =
      ⟨[(n, 0)], [InEvent.complete n], avail, .ok⟩ := by
    simp [recvBatch, h1]
  refine ⟨h1, h2, h3, ?_, ?_⟩
  · simp [handle_incoming_batch, h3]
  · simp [sendBatch, h2]

/-- C2: resolving an offer id delivers the decision at most once.  The
first `accept_file_offer`/`reject_file_offer` call for an id stored in the
table removes its entry and sends the decision on its channel; a second
call for the same id, or any call for an id that was never created, finds
no entry, changes nothing, delivers nothing, and returns `Ok(())`. -/
theorem C2_offer_single_resolution (offers : List (String × Nat)) (offerId : String)
    (ch : Nat) (rx : Nat → Bool) (d d2 : Bool)
    (hnd : (offers.map Prod.fst).Nodup) (hmem : (offerId, ch) ∈ offers)
    (halive : rx ch = true) :
    accept_file_offer rx offerId offers = resolve_file_offer rx true offerId offers ∧
    reject_file_offer rx offerId offers = resolve_file_offer rx false offerId offers ∧
    (resolve_file_offer rx d offerId offers).2.1 = some (ch, d) ∧
    (∀ ch2 : Nat, (offerId, ch2) ∉ (resolve_file_offer rx d offerId offers).1) ∧
    (resolve_file_offer rx d2 offerId ((resolve_file_offer rx d offerId offers).1) =
      ((resolve_file_offer rx d offerId offers).1, none, Except.ok ())) ∧
    (∀ offers2 : List (String × Nat), (∀ c : Nat, (offerId, c) ∉ offers2) →
      resolve_file_offer rx d2 offerId offers2 = (offers2, none, Except.ok ())) := by
  have hgen : ∀ (d3 : Bool) (offers2 : List (String × Nat)),
      (∀ c : Nat, (offerId, c) ∉ offers2) →
      resolve_file_offer rx d3 offerId offers2 = (offers2, none, Except.ok ()) := by
    intro d3 offers2 habs
    unfold resolve_file_offer
    have hnone : offers2.find? (fun e => e.1 == offerId) = none := by
      rw [List.find?_eq_none]
      intro x hx hbeq
      have hx1 : x.1 = offerId := by simpa using hbeq
      exact habs x.2 (by rw [← hx1]; exact hx)
    rw [hnone]
  have hfind : offers.find? (fun e => e.1 == offerId) = some (offerId, ch) := by
    have hsome : (offers.find? (fun e => e.1 == offerId)).isSome := by
      rw [List.find?_isSome]
      exact ⟨(offerId, ch), hmem, by simp⟩
    obtain ⟨e, he⟩ := Option.isSome_iff_exists.mp hsome
    have hmem_e := List.mem_of_find?_eq_some he
    have hkey : e.1 = offerId := by simpa using List.find?_some he
    have heq : e = (offerId, ch) :=
      List.inj_on_of_nodup_map hnd hmem_e hmem (by simpa using hkey)
    rw [he, heq]
  have hres : resolve_file_offer rx d offerId offers =
      (offers.filter (fun x => !(x.1 == offerId)), some (ch, d), Except.ok ()) := by
    unfold resolve_file_offer
    rw [hfind]
    simp [halive]
  have hnotin : ∀ ch2 : Nat, (offerId, ch2) ∉ (resolve_file_offer rx d offerId offers).1 := by
    intro ch2 hin
    rw [hres] at hin
    have := (List.mem_filter.mp hin).2
    simp at this
  refine ⟨rfl, rfl, by rw [hres], hnotin, hgen d2 _ hnotin, fun o2 h => hgen d2 o2 h⟩

/-- Witness for C2 at a concrete table holding one offer. -/
theorem C2_witness :
    ((([("abc", 7)] : List (String × Nat)).map Prod.fst).Nodup ∧
       ("abc", 7) ∈ [("abc", 7)] ∧ (fun _ : Nat => true) 7 = true) ∧
    ((resolve_file_offer (fun _ => true) true "abc" [("abc", 7)]).2.1 = some (7, true) ∧
     (resolve_file_offer (fun _ => true) false "abc"
        ((resolve_file_offer (fun _ => true) true "abc" [("abc", 7)]).1) =
       ((resolve_file_offer (fun _ => true) true "abc" [("abc", 7)]).1, none,
        Except.ok ()))) := by
  have h := C2_offer_single_resolution [("abc", 7)] "abc" 7 (fun _ => true) true false
    (by decide) (by decide) (by decide)
  exact ⟨⟨by decide, by decide, by decide⟩, h.2.2.1, h.2.2.2.2.1⟩

/-- C8: peer identity is the address alone, and the peer set keeps at most
one entry per address: the upsert and the stale sweep both preserve
duplicate-freedom of the stored addresses, the upserted peer is present
afterwards, and upserting an address that is already present replaces the
entry instead of adding a second one (the length is unchanged). -/
theorem C8_address_uniqueness (peers : List Peer) (p : Peer) (now : Nat)
    (h : (peers.map Peer.address).Nodup) :
    (∀ a b : Peer, peerEq a b = true ↔ a.address = b.address) ∧
    ((upsertPeer peers p).2.map Peer.address).Nodup ∧
    p ∈ (upsertPeer peers p).2 ∧
    ((∃ q ∈ peers, q.address = p.address) →
       (upsertPeer peers p).2.length = peers.length) ∧
    ((peers.filter (peerFresh now)).map Peer.address).Nodup := by
  refine ⟨fun a b => by simp [peerEq], ?_, ?_, ?_, nodup_addresses_filter peers _ h⟩
  · unfold upsertPeer
    cases hf : peers.find? (fun q => peerEq q p) with
    | none =>
      rw [List.map_cons, List.nodup_cons]
      refine ⟨?_, h⟩
      intro hpin
      obtain ⟨q, hq, hqa⟩ := List.mem_map.mp hpin
      have := List.find?_eq_none.mp hf q hq
      simp [peerEq, hqa] at this
    | some old =>
      rw [List.map_cons, List.nodup_cons]
      constructor
      · intro hpin
        obtain ⟨q, hq, hqa⟩ := List.mem_map.mp hpin
        have := (List.mem_filter.mp hq).2
        simp [peerEq, hqa] at this
      · exact nodup_addresses_filter peers _ h
  · unfold upsertPeer
    cases hf : peers.find? (fun q => peerEq q p) with
    | none => exact List.mem_cons_self p peers
    | some old => exact List.mem_cons_self p _
  · intro hex
    have hsome : (peers.find? (fun q => peerEq q p)).isSome := by
      rw [List.find?_isSome]
      obtain ⟨q, hq, hqa⟩ := hex
      exact ⟨q, hq, by simp [peerEq, hqa]⟩
    obtain ⟨old, hold⟩ := Option.isSome_iff_exists.mp hsome
    unfold upsertPeer
    rw [hold, List.length_cons, filter_out_address_length p peers h hex]

/-- Witness for C8 at a concrete two-peer set. -/
theorem C8_witness :
    (([⟨"u", "a", none⟩, ⟨"w", "c", some 3⟩] : List Peer).map Peer.address).Nodup ∧
    ((upsertPeer [⟨"u", "a", none⟩, ⟨"w", "c", some 3⟩] ⟨"v", "a", some 1⟩).2.map
        Peer.address).Nodup ∧
    ((⟨"v", "a", some 1⟩ : Peer) ∈
       (upsertPeer [⟨"u", "a", none⟩, ⟨"w", "c", some 3⟩] ⟨"v", "a", some 1⟩).2) ∧
    ((∃ q ∈ ([⟨"u", "a", none⟩, ⟨"w", "c", some 3⟩] : List Peer),
        q.address = (⟨"v", "a", some 1⟩ : Peer).address) →
       (upsertPeer [⟨"u", "a", none⟩, ⟨"w", "c", some 3⟩] ⟨"v", "a", some 1⟩).2.length =
         ([⟨"u", "a", none⟩, ⟨"w", "c", some 3⟩] : List Peer).length) := by
  have h := C8_address_uniqueness [⟨"u", "a", none⟩, ⟨"w", "c", some 3⟩]
    ⟨"v", "a", some 1⟩ 0 (by decide)
  exact ⟨by decide, h.2.1, h.2.2.1, h.2.2.2.1⟩

/-- C4: a valid presence datagram from a non-local source upserts the
peer — afterwards the set holds exactly `⟨u, src, some now⟩` at that
address (username and `last_seen` refreshed) and every other address is
untouched — and the membership-changed notification fires iff the address
was new or the stored username differed; a re-announcement with an
identical username refreshes `last_seen` without notifying. -/
theorem C4_upsert_notification (localIps : List String) (src u : String)
    (now : Nat) (st : SharedState)
    (hloc : localIps.contains src = false)
    (hnd : (st.peers.map Peer.address).Nodup) :
    ((⟨u, src, some now⟩ : Peer) ∈ (handleDatagram localIps src (some u) now st).1.peers) ∧
    (∀ q ∈ (handleDatagram localIps src (some u) now st).1.peers,
       q.address = src → q = ⟨u, src, some now⟩) ∧
    (∀ q : Peer, q.address ≠ src →
       (q ∈ (handleDatagram localIps src (some u) now st).1.peers ↔ q ∈ st.peers)) ∧
    ((handleDatagram localIps src (some u) now st).2 = true ↔
       ((∀ q ∈ st.peers, q.address ≠ src) ∨
        (∃ q ∈ st.peers, q.address = src ∧ q.username ≠ u))) := by
  have hD : handleDatagram localIps src (some u) now st =
      ({ st with peers := (upsertPeer st.peers ⟨u, src, some now⟩).2 },
       match (upsertPeer st.peers ⟨u, src, some now⟩).1 with
       | none => true
       | some o => decide (o.username ≠ u)) := by
    unfold handleDatagram
    rw [hloc]
    simp
  rw [hD]
  cases hf : st.peers.find? (fun q => peerEq q (⟨u, src, some now⟩ : Peer)) with
  | none =>
    have hU : upsertPeer st.peers ⟨u, src, some now⟩ = (none, ⟨u, src, some now⟩ :: st.peers) := by
      unfold upsertPeer
      rw [hf]
    rw [hU]
    have hnot : ∀ q ∈ st.peers, q.address ≠ src := by
      intro q hq he
      have := List.find?_eq_none.mp hf q hq
      simp [peerEq, he] at this
    refine ⟨List.mem_cons_self _ _, ?_, ?_, ?_⟩
    · intro q hq ha
      rcases List.mem_cons.mp hq with rfl | hq'
      · rfl
      · exact absurd ha (hnot q hq')
    · intro q hqa
      rw [List.mem_cons]
      constructor
      · rintro (rfl | hq')
        · exact absurd rfl hqa
        · exact hq'
      · exact Or.inr
    · constructor
      · intro _
        exact Or.inl hnot
      · intro _
        rfl
  | some old =>
    have hU : upsertPeer st.peers ⟨u, src, some now⟩ =
        (some old, ⟨u, src, some now⟩ ::
          st.peers.filter (fun q => !peerEq q ⟨u, src, some now⟩)) := by
      unfold upsertPeer
      rw [hf]
    rw [hU]
    have hold_mem := List.mem_of_find?_eq_some hf
    have hold_addr : old.address = src := by simpa [peerEq] using List.find?_some hf
    refine ⟨List.mem_cons_self _ _, ?_, ?_, ?_⟩
    · intro q hq ha
      rcases List.mem_cons.mp hq with rfl | hq'
      · rfl
      · have := (List.mem_filter.mp hq').2
        simp [peerEq, ha] at this
    · intro q hqa
      rw [List.mem_cons, List.mem_filter]
      constructor
      · rintro (rfl | ⟨hq', _⟩)
        · exact absurd rfl hqa
        · exact hq'
      · intro hq'
        exact Or.inr ⟨hq', by simp [peerEq, hqa]⟩
    · simp only [decide_eq_true_eq]
      constructor
      · intro hne
        exact Or.inr ⟨old, hold_mem, hold_addr, hne⟩
      · rintro (hall | ⟨q, hq, hqa, hqu⟩)
        · exact absurd hold_addr (hall old hold_mem)
        · have : q = old :=
            List.inj_on_of_nodup_map hnd hq hold_mem (by rw [hqa, hold_addr])
          rw [← this]
          exact hqu

/-- Witness for C4: a re-announcement that changes the username. -/
theorem C4_witness :
    ((([] : List String).contains "10.0.0.2" = false) ∧
       ((([⟨"alice", "10.0.0.2", some 0⟩] : List Peer).map Peer.address).Nodup)) ∧
    ((⟨"bob", "10.0.0.2", some 5⟩ : Peer) ∈
       (handleDatagram [] "10.0.0.2" (some "bob") 5
         ⟨[⟨"alice", "10.0.0.2", some 0⟩], ⟨"me", true, "b"⟩⟩).1.peers) ∧
    ((handleDatagram [] "10.0.0.2" (some "bob") 5
         ⟨[⟨"alice", "10.0.0.2", some 0⟩], ⟨"me", true, "b"⟩⟩).2 = true ↔
       ((∀ q ∈ ([⟨"alice", "10.0.0.2", some 0⟩] : List Peer), q.address ≠ "10.0.0.2") ∨
        (∃ q ∈ ([⟨"alice", "10.0.0.2", some 0⟩] : List Peer),
           q.address = "10.0.0.2" ∧ q.username ≠ "bob"))) := by
  have h := C4_upsert_notification [] "10.0.0.2" "bob" 5
    ⟨[⟨"alice", "10.0.0.2", some 0⟩], ⟨"me", true, "b"⟩⟩ (by decide) (by decide)
  exact ⟨⟨by decide, by decide⟩, h.1, h.2.2.2⟩

/-- Fuel-indexed invariant of the receiver loop under an arbitrary socket:
`received_for_file` never exceeds `size` (also at every progress
notification), and the loop reaches its exit (`done`) exactly when
`received_for_file` equals `size`. -/
theorem recvLoopO_bound (sock : Nat → Nat) :
    ∀ n size k received, size - received ≤ n → received ≤ size →
      ((recvLoopO sock size k received).receivedEnd ≤ size ∧
       ((recvLoopO sock size k received).isDone = true ↔
          (recvLoopO sock size k received).receivedEnd = size) ∧
       (∀ e ∈ (recvLoopO sock size k received).events, e ≤ size)) := by
  intro n
  induction n with
  | zero =>
    intro size k received hn h
    rw [recvLoopO, dif_neg (by omega)]
    exact ⟨h, by simp [LoopOut.isDone, LoopOut.receivedEnd]; omega,
      by simp [LoopOut.events]⟩
  | succ n ih =>
    intro size k received hn h
    rw [recvLoopO]
    by_cases hlt : received < size
    · rw [dif_pos hlt]
      by_cases hz : min (sock k) (bytesToRead size received) = 0
      · rw [dif_pos hz]
        refine ⟨Nat.le_of_lt hlt, ?_, by simp [LoopOut.events]⟩
        simp only [LoopOut.isDone, LoopOut.receivedEnd]
        constructor
        · intro hfalse
          exact absurd hfalse (by simp)
        · intro heq
          omega
      · rw [dif_neg hz]
        have hble : min (sock k) (bytesToRead size received) ≤ size - received := by
          have : bytesToRead size received ≤ size - received := Nat.min_le_right _ _
          omega
        have h1 : received + min (sock k) (bytesToRead size received) ≤ size := by omega
        have h2 : size - (received + min (sock k) (bytesToRead size received)) ≤ n := by
          omega
        have IH := ih size (k + 1) (received + min (sock k) (bytesToRead size received)) h2 h1
        rw [LoopOut.receivedEnd_consEvent, LoopOut.isDone_consEvent,
          LoopOut.events_consEvent]
        refine ⟨IH.1, IH.2.1, ?_⟩
        intro e he
        rcases List.mem_cons.mp he with rfl | he'
        · exact h1
        · exact IH.2.2 e he'
    · rw [dif_neg hlt]
      exact ⟨h, by simp [LoopOut.isDone, LoopOut.receivedEnd]; omega,
        by simp [LoopOut.events]⟩

/-- C1: in the receiver's per-file loop, every socket read requests at most
`min CHUNK_SIZE (size - received)` bytes, so `received_for_file` stays at
or below the declared size at every step (including at every progress
notification), and the loop reaches its exit exactly when
`received_for_file = size` — bytes of the next file in the concatenated
body are never consumed as part of the current file. -/
theorem C1_recv_loop_invariant (sock : Nat → Nat) (size k received : Nat)
    (h : received ≤ size) :
    ((recvLoopO sock size k received).receivedEnd ≤ size) ∧
    ((recvLoopO sock size k received).isDone = true ↔
       (recvLoopO sock size k received).receivedEnd = size) ∧
    (∀ e ∈ (recvLoopO sock size k received).events, e ≤ size) :=
  recvLoopO_bound sock (size - received) size k received (Nat.le_refl _) h

/-- Witness for C1: a 5-byte file delivered by a socket that hands out
2 bytes per read. -/
theorem C1_witness :
    ((0 : Nat) ≤ 5) ∧
    (((recvLoopO (fun _ => 2) 5 0 0).receivedEnd ≤ 5) ∧
     ((recvLoopO (fun _ => 2) 5 0 0).isDone = true ↔
        (recvLoopO (fun _ => 2) 5 0 0).receivedEnd = 5) ∧
     (∀ e ∈ (recvLoopO (fun _ => 2) 5 0 0).events, e ≤ 5)) :=
  ⟨by decide, C1_recv_loop_invariant (fun _ => 2) 5 0 0 (by decide)⟩

/-- Prepending a progress notification changes no other field. -/
theorem FileRecv.received_consEvent (v : Nat) (fr : FileRecv) :
    (FileRecv.consEvent v fr).received = fr.received := rfl

/-- Prepending a progress notification changes no other field. -/
theorem FileRecv.availLeft_consEvent (v : Nat) (fr : FileRecv) :
    (FileRecv.consEvent v fr).availLeft = fr.availLeft := rfl

/-- Prepending a progress notification changes no other field. -/
theorem FileRecv.aborted_consEvent (v : Nat) (fr : FileRecv) :
    (FileRecv.consEvent v fr).aborted = fr.aborted := rfl

/-- When the stream still holds all the bytes the file owes, the per-file
loop completes: it consumes exactly `size - received` bytes and leaves the
rest on the stream. -/
theorem recvFileAvail_complete :
    ∀ n size received avail, size - received ≤ n → received ≤ size →
      size - received ≤ avail →
      ((recvFileAvail size received avail).aborted = false ∧
       (recvFileAvail size received avail).received = size ∧
       (recvFileAvail size received avail).availLeft = avail - (size - received)) := by
  intro n
  induction n with
  | zero =>
    intro size received avail hn h hav
    rw [recvFileAvail, dif_neg (by omega)]
    refine ⟨rfl, ?_, ?_⟩
    · show received = size
      omega
    · show avail = avail - (size - received)
      omega
  | succ n ih =>
    intro size received avail hn h hav
    rw [recvFileAvail]
    by_cases hlt : received < size
    · rw [dif_pos hlt]
      have hbtr1 : 1 ≤ bytesToRead size received := by
        unfold bytesToRead CHUNK_SIZE
        omega
      have hbtr2 : bytesToRead size received ≤ size - received := Nat.min_le_right _ _
      have hbz : ¬ min (bytesToRead size received) avail = 0 := by omega
      rw [dif_neg hbz]
      have hb2 : min (bytesToRead size received) avail ≤ avail := Nat.min_le_right _ _
      have hb1 : min (bytesToRead size received) avail ≤ size - received := by omega
      have IH := ih size (received + min (bytesToRead size received) avail)
        (avail - min (bytesToRead size received) avail) (by omega) (by omega) (by omega)
      rw [FileRecv.aborted_consEvent, FileRecv.received_consEvent,
        FileRecv.availLeft_consEvent]
      refine ⟨IH.1, IH.2.1, ?_⟩
      rw [IH.2.2]
      omega
    · rw [dif_neg hlt]
      refine ⟨rfl, ?_, ?_⟩
      · show received = size
        omega
      · show avail = avail - (size - received)
        omega

/-- When the stream closes before the file's bytes are all delivered, the
per-file loop aborts after consuming everything available: it has written
`received + avail` bytes and the stream is exhausted. -/
theorem recvFileAvail_abort :
    ∀ n size received avail, size - received ≤ n → avail < size - received →
      ((recvFileAvail size received avail).aborted = true ∧
       (recvFileAvail size received avail).received = received + avail ∧
       (recvFileAvail size received avail).availLeft = 0) := by
  intro n
  induction n with
  | zero =>
    intro size received avail hn hav
    omega
  | succ n ih =>
    intro size received avail hn hav
    have hlt : received < size := by omega
    rw [recvFileAvail, dif_pos hlt]
    have hbtr1 : 1 ≤ bytesToRead size received := by
      unfold bytesToRead CHUNK_SIZE
      omega
    have hbtr2 : bytesToRead size received ≤ size - received := Nat.min_le_right _ _
    by_cases hz : min (bytesToRead size received) avail = 0
    · rw [dif_pos hz]
      have hav0 : avail = 0 := by omega
      refine ⟨rfl, ?_, ?_⟩
      · show received = received + avail
        omega
      · show avail = 0
        omega
    · rw [dif_neg hz]
      have hb2 : min (bytesToRead size received) avail ≤ avail := Nat.min_le_right _ _
      have hb1 : min (bytesToRead size received) avail ≤ size - received := by omega
      have IH := ih size (received + min (bytesToRead size received) avail)
        (avail - min (bytesToRead size received) avail) (by omega) (by omega)
      rw [FileRecv.aborted_consEvent, FileRecv.received_consEvent,
        FileRecv.availLeft_consEvent]
      refine ⟨IH.1, ?_, IH.2.2⟩
      rw [IH.2.1]
      omega

/-- The batch loop on a stream that runs dry inside file `f`, after the
files of `done` completed: the batch fails with the connection-aborted
error and the disk holds the completed files in full plus the partial
bytes of `f`. -/
theorem recvBatch_abort (f : FileMetadata) (rest : List FileMetadata) :
    ∀ (done : List FileMetadata) (avail : Nat) (disk : List (String × Nat))
      (events : List InEvent),
      sumSizes done ≤ avail → avail < sumSizes done + f.size →
      ((recvBatch avail disk events (done ++ f :: rest)).result =
         .err "Connection closed prematurely" ∧
       (recvBatch avail disk events (done ++ f :: rest)).disk =
         disk ++ done.map (fun g => (g.name, g.size)) ++
           [(f.name, avail - sumSizes done)]) := by
  intro done
  induction done with
  | nil =>
    intro avail disk events h1 h2
    have hs0 : sumSizes ([] : List FileMetadata) = 0 := rfl
    have hab := recvFileAvail_abort f.size f.size 0 avail (by omega) (by omega)
    simp only [List.nil_append, recvBatch]
    rw [if_pos hab.1]
    refine ⟨rfl, ?_⟩
    show disk ++ [(f.name, (recvFileAvail f.size 0 avail).received)] = _
    rw [hab.2.1]
    simp [sumSizes]
  | cons g done' ih =>
    intro avail disk events h1 h2
    have hsum : sumSizes (g :: done') = g.size + sumSizes done' := by
      simp [sumSizes]
    have hcomp := recvFileAvail_complete g.size g.size 0 avail (by omega) (by omega)
      (by omega)
    simp only [List.cons_append, recvBatch, List.append_eq]
    have hnab : ¬ ((recvFileAvail g.size 0 avail).aborted = true) := by
      rw [hcomp.1]
      simp
    rw [if_neg hnab, hcomp.2.1, hcomp.2.2]
    have IH := ih (avail - (g.size - 0)) (disk ++ [(g.name, g.size)])
      (events ++ (recvFileAvail g.size 0 avail).events.map
        (fun r => InEvent.progress g.name r g.size) ++ [InEvent.complete g.name])
      (by omega) (by omega)
    refine ⟨IH.1, ?_⟩
    rw [IH.2]
    have hA : avail - (g.size - 0) - sumSizes done' = avail - sumSizes (g :: done') := by
      rw [hsum]
      omega
    rw [hA]
    simp [List.append_assoc]

/-- C6: if the connection closes (a zero-byte socket read) before the
current file's declared size has been received, the accepted batch aborts
with the connection-aborted error; the files completed earlier in the
batch remain on disk in full, and the current file remains with the bytes
written so far — no cleanup. -/
theorem C6_connection_abort (done : List FileMetadata) (f : FileMetadata)
    (rest : List FileMetadata) (avail : Nat)
    (h1 : sumSizes done ≤ avail) (h2 : avail < sumSizes done + f.size) :
    (handle_incoming_batch (some true) true (done ++ f :: rest) avail).1 = [1] ∧
    (handle_incoming_batch (some true) true (done ++ f :: rest) avail).2.result =
      .err "Connection closed prematurely" ∧
    (handle_incoming_batch (some true) true (done ++ f :: rest) avail).2.disk =
      done.map (fun g => (g.name, g.size)) ++ [(f.name, avail - sumSizes done)] := by
  have hb := recvBatch_abort f rest done avail [] [] h1 h2
  have hH : handle_incoming_batch (some true) true (done ++ f :: rest) avail =
      ([1], recvBatch avail [] [] (done ++ f :: rest)) := by
    simp [handle_incoming_batch]
  rw [hH]
  refine ⟨rfl, hb.1, ?_⟩
  rw [hb.2]
  simp

/-- Witness for C6: a 3-byte file completes, then the connection dies one
byte into a declared 5-byte file. -/
theorem C6_witness :
    (sumSizes [⟨"a", 3⟩] ≤ 4 ∧ 4 < sumSizes [⟨"a", 3⟩] + (⟨"b", 5⟩ : FileMetadata).size) ∧
    ((handle_incoming_batch (some true) true ([⟨"a", 3⟩] ++ ⟨"b", 5⟩ :: []) 4).2.result =
       .err "Connection closed prematurely" ∧
     (handle_incoming_batch (some true) true ([⟨"a", 3⟩] ++ ⟨"b", 5⟩ :: []) 4).2.disk =
       [("a", 3), ("b", 1)]) := by
  have h := C6_connection_abort [⟨"a", 3⟩] ⟨"b", 5⟩ [] 4 (by decide) (by decide)
  refine ⟨⟨by decide, by decide⟩, h.2.1, ?_⟩
  rw [h.2.2]
  rfl

end Kitsunet
